import Mathlib

/-!
# Verification of the LipIDens binding-site engine specification

The repository's own source (`LipIDens.ipynb`) is thin workflow orchestration:
the algorithmic core (contact-event detection, binding-site clustering,
kinetics estimation, screening/ranking, cross-species correspondence matching)
lives in the `lipidens`/PyLipID packages, which are not part of the in-tree
source.  Following the specification's component design (sections 4.1-4.5),
the missing engine components are modelled here from the spec's words and the
stated properties are settled against those models.  The notebook's own wiring
(which stage calls `get_lipids` with which `bilayer` argument) is embedded
directly from the notebook cells.
-/

namespace LipIDens

/-! ## Data model (spec section 3) -/

/-- Modelled from the spec: a `ContactInterval` records one maximal bound span
for a (residue, mobile-instance) pair, as start/end frame indices, with a flag
marking right-censored intervals (trajectory ended while still bound). -/
structure ContactInterval where
  start : Nat
  stop : Nat
  censored : Bool
deriving DecidableEq, Repr

/-! ## 4.1 Contact Event Detector (dual-threshold hysteresis)

Missing from the in-tree source (implemented inside PyLipID); modelled from
spec section 4.1: state {bound, unbound}, initially unbound; transition to
bound the first time distance ≤ ℓ; once bound the interval persists while
distance ≤ u and closes at the last frame where distance ≤ u once distance
exceeds u; trajectory end while bound closes the interval at the final frame,
flagged right-censored. -/

/-- Modelled from the spec: one step of the hysteresis state machine, scanning
the distance series `ds` from frame index `i` with current state `st`
(`none` = unbound, `some s` = bound since frame `s`). -/
def scanContacts (l u : ℚ) : List ℚ → Nat → Option Nat → List ContactInterval
  | [], _, none => []
  | [], i, some s => [⟨s, i - 1, true⟩]
  | d :: ds, i, none =>
      if d ≤ l then scanContacts l u ds (i + 1) (some i)
      else scanContacts l u ds (i + 1) none
  | d :: ds, i, some s =>
      if d ≤ u then scanContacts l u ds (i + 1) (some s)
      else ⟨s, i - 1, false⟩ :: scanContacts l u ds (i + 1) none

/-- Modelled from the spec: the dual-threshold Contact Event Detector on a
minimum-distance time series. -/
def detectContacts (l u : ℚ) (ds : List ℚ) : List ContactInterval :=
  scanContacts l u ds 0 none

/-- Modelled from the spec: one step of a single-threshold contact detector
(bound iff distance ≤ c), the comparison point for the degenerate case. -/
def scanSingle (c : ℚ) : List ℚ → Nat → Option Nat → List ContactInterval
  | [], _, none => []
  | [], i, some s => [⟨s, i - 1, true⟩]
  | d :: ds, i, none =>
      if d ≤ c then scanSingle c ds (i + 1) (some i)
      else scanSingle c ds (i + 1) none
  | d :: ds, i, some s =>
      if d ≤ c then scanSingle c ds (i + 1) (some s)
      else ⟨s, i - 1, false⟩ :: scanSingle c ds (i + 1) none

/-- Modelled from the spec: single-threshold contact detector. -/
def detectSingle (c : ℚ) (ds : List ℚ) : List ContactInterval :=
  scanSingle c ds 0 none

/-! ## 4.3 / 4.4 Kinetics Estimator failure policy and Screening/Ranking

Missing from the in-tree source (implemented inside PyLipID /
`lipidens.screen_PyLipID_data` / `lipidens.rank_sites`); modelled from spec
sections 4.3, 4.4 and 7: per-site kinetics records, the insufficient-data
policy, and the composite ranking rule. -/

/-- Modelled from the spec: the per-site kinetics record (spec section 3,
`SiteKinetics`). -/
structure SiteKinetics where
  occupancy : ℚ
  residenceTimeMean : ℚ
  residenceTimeMode : ℚ
  surfaceArea : ℚ
  koffFit : ℚ
  koffBootstrap : ℚ
  deltaKoff : ℚ
  fitQualityR2 : ℚ
deriving DecidableEq, Repr

/-- Modelled from the spec: a binding site as handed to the kinetics
estimator: its id, residue membership and attributed contact intervals. -/
structure Site where
  siteId : Nat
  residues : List Nat
  intervals : List ContactInterval
deriving DecidableEq, Repr

/-- Closed (non-right-censored) contact intervals of a site. -/
def closedIntervals (s : Site) : List ContactInterval :=
  s.intervals.filter (fun iv => !iv.censored)

/-- Number of closed contact intervals of a site. -/
def closedCount (s : Site) : Nat :=
  (closedIntervals s).length

/-- Modelled from the spec: outcome of kinetics estimation for one site:
either fitted kinetics or the "insufficient data" mark. -/
inductive KineticsOutcome where
  | insufficientData : KineticsOutcome
  | fitted : SiteKinetics → KineticsOutcome
deriving DecidableEq, Repr

/-- Modelled from the spec (section 4.3 failure policy): if fewer than
`minClosed` closed intervals exist the site is marked "insufficient data"
rather than fitted; otherwise the (numeric, externally supplied) fitting
routine `fit` runs on the closed intervals. -/
def estimateKinetics (minClosed : Nat) (fit : List ContactInterval → SiteKinetics)
    (s : Site) : KineticsOutcome :=
  if closedCount s < minClosed then KineticsOutcome.insufficientData
  else KineticsOutcome.fitted (fit (closedIntervals s))

/-- Modelled from the spec: one row of the screening table: a site id and its
kinetics, `none` meaning the structured "insufficient data" flag. -/
structure RankEntry where
  siteId : Nat
  kinetics : Option SiteKinetics
deriving DecidableEq, Repr

/-- Modelled from the spec: screening turns each site into its rank entry,
attaching the insufficient-data flag as a structured value. -/
def toRankEntry (minClosed : Nat) (fit : List ContactInterval → SiteKinetics)
    (s : Site) : RankEntry :=
  { siteId := s.siteId,
    kinetics :=
      match estimateKinetics minClosed fit s with
      | KineticsOutcome.insufficientData => none
      | KineticsOutcome.fitted k => some k }

/-- Modelled from the spec: the screening stage maps every site (none is
dropped) to its rank entry. -/
def screenSites (minClosed : Nat) (fit : List ContactInterval → SiteKinetics)
    (sites : List Site) : List RankEntry :=
  sites.map (toRankEntry minClosed fit)

/-- Modelled from the spec (section 4.4): the composite ranking comparator:
residence_time_mean descending, then delta_k_off ascending, then
fit_quality_r2 descending; entries flagged "insufficient data" sort after
every fitted entry. -/
def rankLE (a b : RankEntry) : Bool :=
  match a.kinetics, b.kinetics with
  | none, none => true
  | none, some _ => false
  | some _, none => true
  | some ka, some kb =>
      decide (kb.residenceTimeMean < ka.residenceTimeMean ∨
        (kb.residenceTimeMean = ka.residenceTimeMean ∧
          (ka.deltaKoff < kb.deltaKoff ∨
            (ka.deltaKoff = kb.deltaKoff ∧ kb.fitQualityR2 ≤ ka.fitQualityR2))))

/-- Modelled from the spec: the ranking stage orders the screened entries by
the composite rule (a pure reordering). -/
def rankSites (entries : List RankEntry) : List RankEntry :=
  entries.mergeSort rankLE

/-- Modelled from the spec: the end-to-end screened-and-ranked output. -/
def rankedOutput (minClosed : Nat) (fit : List ContactInterval → SiteKinetics)
    (sites : List Site) : List RankEntry :=
  rankSites (screenSites minClosed fit sites)

/-- The spec's composite ordering rule between two adjacent ranked entries,
stated as a proposition: an insufficient-data entry is never followed by a
fitted one, and fitted entries obey residence_time_mean descending, then
delta_k_off ascending, then fit_quality_r2 descending. -/
def RankedBefore (a b : RankEntry) : Prop :=
  (a.kinetics = none → b.kinetics = none) ∧
  ∀ ka kb, a.kinetics = some ka → b.kinetics = some kb →
    kb.residenceTimeMean < ka.residenceTimeMean ∨
      (kb.residenceTimeMean = ka.residenceTimeMean ∧
        (ka.deltaKoff < kb.deltaKoff ∨
          (ka.deltaKoff = kb.deltaKoff ∧ kb.fitQualityR2 ≤ ka.fitQualityR2)))

/-! ## 4.3 / 7(5) k_off fit convergence fallback

Missing from the in-tree source; modelled from spec sections 4.3 and 7, item
(5): the bi-exponential nonlinear fit is an external numeric routine that may
fail to converge, represented here by its outcome (`none` = convergence
failure). -/

/-- Modelled from the spec: the outcome of one exponential-decay fit: the
effective k_off and the fit R². -/
structure ExpFit where
  koff : ℚ
  r2 : ℚ
deriving DecidableEq, Repr

/-- Modelled from the spec: which decay model the reported k_off came from. -/
inductive FitModel where
  | biexponential : FitModel
  | singleExponential : FitModel
deriving DecidableEq, Repr

/-- Modelled from the spec: the reported k_off fit for one site, carrying the
model actually used and the reduced-model-fidelity flag. -/
structure KoffFitReport where
  model : FitModel
  koff : ℚ
  r2 : ℚ
  reducedFidelity : Bool
deriving DecidableEq, Repr

/-- Modelled from the spec (error taxonomy item 5): if the bi-exponential fit
converged (`some`), report it as the bi-exponential model with full fidelity;
on convergence failure (`none`), fall back to the single-exponential fit and
set the reduced-model-fidelity flag. -/
def fitKoffReport (biexp : Option ExpFit) (monoexp : ExpFit) : KoffFitReport :=
  match biexp with
  | some f => { model := FitModel.biexponential, koff := f.koff, r2 := f.r2, reducedFidelity := false }
  | none => { model := FitModel.singleExponential, koff := monoexp.koff, r2 := monoexp.r2, reducedFidelity := true }

/-- Modelled from the spec: per-site k_off fitting over a batch of sites, each
given by its (possibly failed) bi-exponential fit outcome and its
single-exponential fallback fit; every site is processed. -/
def fitAllSites (fits : List (Option ExpFit × ExpFit)) : List KoffFitReport :=
  fits.map (fun p => fitKoffReport p.1 p.2)

/-! ## 4.5 Cross-Species Correspondence Matcher

Missing from the in-tree source (implemented by `lipidens.rank_sites`);
modelled from spec section 4.5: intersection-over-union residue-set
similarity, greedy matching of the best unmatched candidate above a
minimum-overlap threshold, ties broken by larger residue set then lower site
id, sentinel `none` for types without a qualifying match; the automatic
result is advisory and a user-supplied entry replaces it wholesale. -/

/-- Modelled from the spec: a binding site as seen by the matcher: its id and
residue membership. -/
structure MatchSite where
  siteId : Nat
  residues : Finset Nat
deriving DecidableEq

/-- Modelled from the spec: a `CorrespondenceEntry` maps each mobile-species
type (lipid name) to the ordered sequence of its site ids per shared
location, `none` being the "no corresponding site" sentinel. -/
abbrev CorrespondenceEntry := List (String × List (Option Nat))

/-- Modelled from the spec: intersection-over-union residue-set similarity. -/
def iou (a b : Finset Nat) : ℚ :=
  ((a ∩ b).card : ℚ) / ((a ∪ b).card : ℚ)

/-- Modelled from the spec: candidate preference for matching against a fixed
anchor residue set: higher similarity first; ties prefer the larger residue
set, then the lower site id. -/
def candBetter (anchor : Finset Nat) (x y : MatchSite) : Bool :=
  decide (iou anchor y.residues < iou anchor x.residues ∨
    (iou anchor y.residues = iou anchor x.residues ∧
      (y.residues.card < x.residues.card ∨
        (y.residues.card = x.residues.card ∧ x.siteId < y.siteId))))

/-- Modelled from the spec: deterministically pick the preferred candidate
from a pool. -/
def pickBest (anchor : Finset Nat) (pool : List MatchSite) : Option MatchSite :=
  pool.foldl (fun acc s =>
    match acc with
    | none => some s
    | some b => if candBetter anchor s b then some s else some b) none

/-- Modelled from the spec: greedily match each anchor site (a location of
the reference type) against the still-unmatched sites of another type whose
similarity reaches the minimum-overlap threshold; unmatched locations get the
sentinel. -/
def matchAgainst (thr : ℚ) : List MatchSite → List MatchSite → List (Option Nat)
  | [], _ => []
  | a :: as, pool =>
      match pickBest a.residues
          (pool.filter (fun s => decide (thr ≤ iou a.residues s.residues))) with
      | none => none :: matchAgainst thr as pool
      | some b =>
          some b.siteId :: matchAgainst thr as (pool.filter (fun s => s.siteId != b.siteId))

/-- Modelled from the spec: `rs.compare_sites` — the automatic cross-species
correspondence: the first type's sites define the locations; every other
type is greedily matched against them. -/
def compare_sites (thr : ℚ) (typed : List (String × List MatchSite)) : CorrespondenceEntry :=
  match typed with
  | [] => []
  | (l0, s0) :: rest =>
      (l0, s0.map (fun s => some s.siteId)) ::
        rest.map (fun p => (p.1, matchAgainst thr s0 p.2))

/-- Modelled from the spec: the inputs flowing into the ranking stage: the
per-type site sets and the current correspondence table (the small piece of
process state the automatic-suggestion step writes). -/
structure RankingInputs where
  typedSites : List (String × List MatchSite)
  corr : Option CorrespondenceEntry
deriving DecidableEq

/-- Modelled from the spec: the automatic-suggestion step: run the matcher on
the current site sets and store the resulting correspondence. -/
def autoSuggest (thr : ℚ) (st : RankingInputs) : RankingInputs :=
  { st with corr := some (compare_sites thr st.typedSites) }

/-- Modelled from the spec: `rs.get_site_compare` — resolve the
correspondence used by ranking/export: a user-supplied entry is
authoritative; only in its absence is the automatic suggestion used. -/
def get_site_compare (auto : CorrespondenceEntry) (user : Option CorrespondenceEntry) :
    CorrespondenceEntry :=
  match user with
  | some e => e
  | none => auto

/-- Modelled from the spec: `rs.get_BSstat` — the ranking/export stage builds
the residence-time comparison table keyed by the shared location ordinal from
the correspondence entry (looking each site id up in the per-type residence
times) and hands the correspondence through unchanged. -/
def get_BSstat (resTime : String → Nat → ℚ) (corr : CorrespondenceEntry) :
    List (String × List (Option ℚ)) × CorrespondenceEntry :=
  (corr.map (fun p => (p.1, p.2.map (fun r => r.map (resTime p.1)))), corr)

/-! ## Notebook lipid-list wiring (cells of `LipIDens.ipynb`)

`lip_test.get_lipids` itself is not in-tree; modelled from the notebook's
documented behaviour: with `bilayer=None` the lipid names come from user
input alone, otherwise every lipid of the configured bilayer composition is
considered.  The per-stage call wiring below is embedded directly from the
notebook source cells. -/

/-- Modelled from the spec: a membrane composition is either one of the
predefined bilayer names or a custom composition given as species/fraction
entries (leaflet tags are irrelevant to lipid-name extraction). -/
inductive MembraneComposition where
  | predefined : String → MembraneComposition
  | custom : List (String × Nat) → MembraneComposition
deriving DecidableEq, Repr

/-- Modelled from the spec: `ps.bilayer_select` — resolve a membrane
composition to its species/fraction list, using the notebook's predefined
bilayer table. -/
def bilayer_select (mc : MembraneComposition) : List (String × Nat) :=
  match mc with
  | MembraneComposition.predefined n =>
      if n = "Simple" then
        [("POPC", 70), ("CHOL", 30), ("POPC", 70), ("CHOL", 30)]
      else if n = "Plasma membrane" then
        [("POPC", 20), ("DOPC", 20), ("POPE", 5), ("DOPE", 5), ("DPSM", 15),
         ("DPG3", 10), ("CHOL", 25), ("POPC", 5), ("DOPC", 5), ("POPE", 20),
         ("DOPE", 20), ("POPS", 8), ("DOPS", 7), ("POP2", 10), ("CHOL", 25)]
      else if n = "ER membrane" then
        [("POPC", 37), ("DOPC", 37), ("POPE", 8), ("DOPE", 8), ("CHOL", 10),
         ("POPC", 15), ("DOPC", 15), ("POPE", 20), ("DOPE", 20), ("POPS", 10),
         ("POP2", 10), ("CHOL", 10)]
      else if n = "Raft-like microdomain" then
        [("DPPC", 27), ("DPPE", 8), ("DPSM", 15), ("DPG3", 10), ("CHOL", 40),
         ("DPPC", 15), ("DPPE", 35), ("DPPS", 10), ("CHOL", 40)]
      else if n = "Gram neg. inner membrane" then
        [("POPE", 67), ("POPG", 23), ("CDL2", 10), ("POPE", 67), ("POPG", 23),
         ("CDL2", 10)]
      else if n = "Gram neg. outer membrane" then
        [("PGIN", 100), ("POPE", 90), ("POPG", 5), ("CDL2", 5)]
      else []
  | MembraneComposition.custom comp => comp

/-- Modelled from the spec: `lip_test.get_lipids` — with `bilayer = none` the
lipid list is taken from user input alone; otherwise it is the (deduplicated)
list of species of the bilayer composition. -/
def get_lipids (bilayer : Option (List (String × Nat))) (userLipids : List String) :
    List String :=
  match bilayer with
  | none => userLipids
  | some comp => (comp.map Prod.fst).dedup

/-- Notebook section 2 (cell `lip_list=lip_test.get_lipids(bilayer=bilayer)`
with `bilayer=ps.bilayer_select(membrane_composition)`): the cut-off-testing
stage derives its lipid list from the configured membrane composition. -/
def cutoff_test_lipids (mc : MembraneComposition) (userLipids : List String) :
    List String :=
  get_lipids (some (bilayer_select mc)) userLipids

/-- Notebook section 3 (same `get_lipids(bilayer=bilayer)` call): the
PyLipID-analysis stage derives its lipid list from the configured membrane
composition. -/
def pylipid_analysis_lipids (mc : MembraneComposition) (userLipids : List String) :
    List String :=
  get_lipids (some (bilayer_select mc)) userLipids

/-- Notebook section 5 (cell `lip_list=lip_test.get_lipids(bilayer=None)`):
the site-ranking/correspondence stage computes its lipid list with
`bilayer=None`, i.e. from user input alone. -/
def site_ranking_lipids (_ : MembraneComposition) (userLipids : List String) :
    List String :=
  get_lipids none userLipids

/-! ## 4.2 Binding Site Clustering

Missing from the in-tree source (implemented inside PyLipID); modelled from
spec section 4.2 and design note 9: residues are partitioned by community
structure of the temporal co-occurrence graph.  Following the spec's
determinism requirement ("a provably order-independent algorithm ... should
be used instead of relying on incidental iteration order"), communities are
taken as the connected components of the co-occurrence graph, computed
entirely over finite sets so that no iteration order exists; communities
below the configured minimum size are discarded. -/

/-- Modelled from the spec: one contact-interval record as consumed by the
clustering stage: contacted residue, mobile-species instance, frame span. -/
structure IntervalRec where
  residue : Nat
  instanceId : Nat
  start : Nat
  stop : Nat
deriving DecidableEq, Repr

/-- Modelled from the spec: residues `r` and `r'` temporally co-occur when
they are distinct and some mobile instance is simultaneously bound to both
(two intervals of the same instance with overlapping frame spans). -/
def cooccur (ivs : List IntervalRec) (r r' : Nat) : Prop :=
  r ≠ r' ∧ ∃ a ∈ ivs, ∃ b ∈ ivs,
    a.residue = r ∧ b.residue = r' ∧ a.instanceId = b.instanceId ∧
      a.start ≤ b.stop ∧ b.start ≤ a.stop

instance (ivs : List IntervalRec) (r r' : Nat) : Decidable (cooccur ivs r r') := by
  unfold cooccur
  exact inferInstance

/-- The co-occurrence adjacency of an interval set, as a Boolean relation. -/
def adjOf (ivs : List IntervalRec) : Nat → Nat → Bool :=
  fun r r' => decide (cooccur ivs r r')

/-- The set of residues contacted at least once. -/
def contactedResidues (ivs : List IntervalRec) : Finset Nat :=
  (ivs.map IntervalRec.residue).toFinset

/-- One breadth step: add every residue of `univ` adjacent to the current
set. -/
def expandOnce (adj : Nat → Nat → Bool) (univ s : Finset Nat) : Finset Nat :=
  s ∪ univ.filter (fun r => ∃ x ∈ s, adj x r)

/-- Iterated breadth steps. -/
def reachIter (adj : Nat → Nat → Bool) (univ : Finset Nat) : Nat → Finset Nat → Finset Nat
  | 0, s => s
  | n + 1, s => reachIter adj univ n (expandOnce adj univ s)

/-- The connected component of residue `r`: `univ.card` breadth steps from
`{r}` saturate reachability inside `univ`. -/
def component (adj : Nat → Nat → Bool) (univ : Finset Nat) (r : Nat) : Finset Nat :=
  reachIter adj univ univ.card {r}

/-- Modelled from the spec: the partition step: the set of connected
components of the adjacency restricted to `univ`, keeping those of at least
the configured minimum size. -/
def clusterCore (minSize : Nat) (adj : Nat → Nat → Bool) (univ : Finset Nat) :
    Finset (Finset Nat) :=
  (univ.image (fun r => component adj univ r)).filter (fun c => minSize ≤ c.card)

/-- Modelled from the spec: Binding Site Clustering for one mobile-species
type: partition the contacted residues by the temporal co-occurrence graph of
the given contact intervals, discarding sub-minimum communities.  The result
is a set of residue sets: site ids play no role in membership. -/
def clusterSites (minSize : Nat) (ivs : List IntervalRec) : Finset (Finset Nat) :=
  clusterCore minSize (adjOf ivs) (contactedResidues ivs)

/-- One admissible edge step inside `univ` of a Boolean adjacency. -/
def AdjStep (adj : Nat → Nat → Bool) (univ : Finset Nat) (x y : Nat) : Prop :=
  x ∈ univ ∧ y ∈ univ ∧ adj x y = true

end LipIDens

namespace LipIDens

/-! ### Phase lemmas for the hysteresis scan -/

theorem scanContacts_unbound_skip (l u : ℚ) (pre rest : List ℚ) (i : Nat)
    (h : ∀ d ∈ pre, l < d) :
    scanContacts l u (pre ++ rest) i none = scanContacts l u rest (i + pre.length) none := by
  induction pre generalizing i with
  | nil => simp
  | cons d pre ih =>
      have hd : l < d := h d (List.mem_cons_self d pre)
      simp only [List.cons_append, scanContacts, if_neg (not_le.mpr hd), List.append_eq]
      rw [ih (i + 1) (fun x hx => h x (List.mem_cons_of_mem d hx))]
      congr 1
      simp only [List.length_cons]
      omega

theorem scanContacts_bound_skip (l u : ℚ) (mid rest : List ℚ) (i s : Nat)
    (h : ∀ d ∈ mid, d ≤ u) :
    scanContacts l u (mid ++ rest) i (some s) =
      scanContacts l u rest (i + mid.length) (some s) := by
  induction mid generalizing i with
  | nil => simp
  | cons d mid ih =>
      have hd : d ≤ u := h d (List.mem_cons_self d mid)
      simp only [List.cons_append, scanContacts, if_pos hd, List.append_eq]
      rw [ih (i + 1) (fun x hx => h x (List.mem_cons_of_mem d hx))]
      congr 1
      simp only [List.length_cons]
      omega

theorem scanContacts_never_bind (l u : ℚ) (post : List ℚ) (i : Nat)
    (h : ∀ d ∈ post, l < d) :
    scanContacts l u post i none = [] := by
  induction post generalizing i with
  | nil => rfl
  | cons d post ih =>
      have hd : l < d := h d (List.mem_cons_self d post)
      simp only [scanContacts, if_neg (not_le.mpr hd)]
      exact ih (i + 1) (fun x hx => h x (List.mem_cons_of_mem d hx))

/-- C1: For every distance time series with a single excursion below ℓ
(the series decomposes as `pre ++ da :: mid ++ dc :: post` with every frame of
`pre` and `post` strictly above ℓ, the first excursion frame `da ≤ ℓ`, the
fluctuation frames `mid` all ≤ u, and `dc > u` the first rise above u), the
dual-threshold detector opens the interval at the first frame with distance
≤ ℓ, keeps it open through the fluctuations between ℓ and u, and closes it at
the last frame with distance ≤ u: it yields exactly one `ContactInterval`
spanning the excursion, not right-censored. -/
theorem contact_detector_single_excursion (l u : ℚ) (pre mid post : List ℚ)
    (da dc : ℚ) (hpre : ∀ d ∈ pre, l < d) (hda : da ≤ l) (hmid : ∀ d ∈ mid, d ≤ u)
    (hdc : u < dc) (hpost : ∀ d ∈ post, l < d) :
    detectContacts l u (pre ++ (da :: (mid ++ (dc :: post)))) =
      [⟨pre.length, pre.length + mid.length, false⟩] := by
  unfold detectContacts
  rw [scanContacts_unbound_skip l u pre (da :: (mid ++ (dc :: post))) 0 hpre]
  simp only [scanContacts, if_pos hda, Nat.zero_add]
  rw [scanContacts_bound_skip l u mid (dc :: post) (pre.length + 1) pre.length hmid]
  simp only [scanContacts, if_neg (not_le.mpr hdc)]
  rw [scanContacts_never_bind l u post _ hpost]
  have harith : pre.length + 1 + mid.length - 1 = pre.length + mid.length := by omega
  rw [harith]

/-- Closed witness for `contact_detector_single_excursion` at a concrete
series: thresholds ℓ = 1/2, u = 7/10, series 1, 2/5, 3/5, 1, 2
(one excursion below ℓ at frame 1, fluctuation at frame 2, rise above u at
frame 3), giving the single interval [1, 2]. -/
theorem contact_detector_single_excursion_witness :
    detectContacts (1/2) (7/10) ([1] ++ ((2/5) :: ([3/5] ++ (2 :: [1])))) =
      [⟨1, 2, false⟩] := by
  apply contact_detector_single_excursion
  · intro d hd; simp at hd; rw [hd]; norm_num
  · norm_num
  · intro d hd; simp at hd; rw [hd]; norm_num
  · norm_num
  · intro d hd; simp at hd; rw [hd]; norm_num

theorem scanContacts_eq_scanSingle (c : ℚ) (ds : List ℚ) (i : Nat) (st : Option Nat) :
    scanContacts c c ds i st = scanSingle c ds i st := by
  induction ds generalizing i st with
  | nil => cases st <;> rfl
  | cons d ds ih =>
      cases st with
      | none =>
          simp only [scanContacts, scanSingle]
          by_cases h : d ≤ c
          · rw [if_pos h, if_pos h, ih]
          · rw [if_neg h, if_neg h, ih]
      | some s =>
          simp only [scanContacts, scanSingle]
          by_cases h : d ≤ c
          · rw [if_pos h, if_pos h, ih]
          · rw [if_neg h, if_neg h, ih]

/-- C7: with equal lower and upper thresholds ℓ = u = c, the dual-threshold
Contact Event Detector produces exactly the same contact intervals as the
single-threshold detector with threshold c, on every distance series. -/
theorem dual_threshold_degenerate_eq_single (c : ℚ) (ds : List ℚ) :
    detectContacts c c ds = detectSingle c ds :=
  scanContacts_eq_scanSingle c ds 0 none

/-! ### The composite ranking comparator is total and transitive -/

theorem rankLE_total (a b : RankEntry) : rankLE a b || rankLE b a := by
  cases ha : a.kinetics with
  | none =>
      cases hb : b.kinetics with
      | none => simp [rankLE, ha, hb]
      | some kb => simp [rankLE, ha, hb]
  | some ka =>
      cases hb : b.kinetics with
      | none => simp [rankLE, ha, hb]
      | some kb =>
          simp only [rankLE, ha, hb, Bool.or_eq_true, decide_eq_true_eq]
          by_cases h1 : ka.residenceTimeMean = kb.residenceTimeMean
          · by_cases h2 : ka.deltaKoff = kb.deltaKoff
            · rcases le_total kb.fitQualityR2 ka.fitQualityR2 with h3 | h3
              · exact Or.inl (Or.inr ⟨h1.symm, Or.inr ⟨h2, h3⟩⟩)
              · exact Or.inr (Or.inr ⟨h1, Or.inr ⟨h2.symm, h3⟩⟩)
            · rcases lt_or_gt_of_ne h2 with h3 | h3
              · exact Or.inl (Or.inr ⟨h1.symm, Or.inl h3⟩)
              · exact Or.inr (Or.inr ⟨h1, Or.inl h3⟩)
          · rcases lt_or_gt_of_ne h1 with h3 | h3
            · exact Or.inr (Or.inl h3)
            · exact Or.inl (Or.inl h3)

theorem rankLE_trans (a b c : RankEntry) :
    rankLE a b → rankLE b c → rankLE a c := by
  cases ha : a.kinetics with
  | none =>
      cases hb : b.kinetics with
      | none =>
          cases hc : c.kinetics with
          | none => simp [rankLE, ha, hb, hc]
          | some kc => simp [rankLE, ha, hb, hc]
      | some kb => simp [rankLE, ha, hb]
  | some ka =>
      cases hb : b.kinetics with
      | none =>
          cases hc : c.kinetics with
          | none => simp [rankLE, ha, hb, hc]
          | some kc => simp [rankLE, ha, hb, hc]
      | some kb =>
          cases hc : c.kinetics with
          | none => simp [rankLE, ha, hb, hc]
          | some kc =>
              simp only [rankLE, ha, hb, hc, decide_eq_true_eq]
              intro h1 h2
              rcases h1 with h1 | ⟨e1, h1⟩
              · rcases h2 with h2 | ⟨e2, h2⟩
                · exact Or.inl (lt_trans h2 h1)
                · exact Or.inl (e2 ▸ h1)
              · rcases h2 with h2 | ⟨e2, h2⟩
                · exact Or.inl (e1 ▸ h2)
                · refine Or.inr ⟨e2.trans e1, ?_⟩
                  rcases h1 with h1 | ⟨f1, h1⟩
                  · rcases h2 with h2 | ⟨f2, h2⟩
                    · exact Or.inl (lt_trans h1 h2)
                    · exact Or.inl (f2 ▸ h1)
                  · rcases h2 with h2 | ⟨f2, h2⟩
                    · exact Or.inl (f1 ▸ h2)
                    · exact Or.inr ⟨f1.trans f2, le_trans h2 h1⟩

theorem rankLE_ranked_before (a b : RankEntry) (h : rankLE a b = true) :
    RankedBefore a b := by
  cases ha : a.kinetics with
  | none =>
      cases hb : b.kinetics with
      | none =>
          exact ⟨fun _ => hb, fun ka kb hka _ => by rw [ha] at hka; cases hka⟩
      | some kb =>
          simp [rankLE, ha, hb] at h
  | some ka =>
      cases hb : b.kinetics with
      | none =>
          refine ⟨fun h0 => ?_, fun ka' kb' _ hkb => by rw [hb] at hkb; cases hkb⟩
          rw [ha] at h0; cases h0
      | some kb =>
          simp only [rankLE, ha, hb, decide_eq_true_eq] at h
          refine ⟨fun h0 => Option.noConfusion (ha.symm.trans h0), ?_⟩
          intro ka' kb' hka hkb
          rw [ha] at hka
          rw [hb] at hkb
          cases hka
          cases hkb
          exact h

theorem rankSites_perm (entries : List RankEntry) :
    List.Perm (rankSites entries) entries :=
  List.mergeSort_perm entries rankLE

theorem rankSites_pairwise (entries : List RankEntry) :
    List.Pairwise RankedBefore (rankSites entries) :=
  (List.sorted_mergeSort rankLE_trans rankLE_total entries).imp
    (fun h => rankLE_ranked_before _ _ h)

/-- C3: the Screening/Ranking stage is a pure reordering of the screened
entries (its output is a permutation of its input, so every kinetics value is
left unchanged and nothing is re-clustered), and the output is ordered by the
composite rule: residence_time_mean descending, then delta_k_off ascending,
then fit_quality_r2 descending, with "insufficient data" entries never placed
before a fitted entry. -/
theorem ranking_pure_reorder_composite_rule (entries : List RankEntry) :
    List.Perm (rankSites entries) entries ∧
      List.Pairwise RankedBefore (rankSites entries) :=
  ⟨rankSites_perm entries, rankSites_pairwise entries⟩

/-- C2: a site with fewer closed (non-right-censored) contact intervals than
the sufficiency minimum is not fitted but marked "insufficient data"; its
entry (id with the insufficient flag) is retained in the screening output for
any site list containing it; and in the ranked output every insufficient
entry is placed after all fitted entries (excluded from rate-based ranking,
ranked last). -/
theorem insufficient_data_policy (minClosed : Nat)
    (fit : List ContactInterval → SiteKinetics) (s : Site) (sites : List Site)
    (hmem : s ∈ sites) (h : closedCount s < minClosed) :
    estimateKinetics minClosed fit s = KineticsOutcome.insufficientData ∧
    ({ siteId := s.siteId, kinetics := none } : RankEntry) ∈ screenSites minClosed fit sites ∧
    List.Pairwise (fun a b => a.kinetics = none → b.kinetics = none)
      (rankedOutput minClosed fit sites) := by
  have hest : estimateKinetics minClosed fit s = KineticsOutcome.insufficientData := by
    unfold estimateKinetics
    rw [if_pos h]
  refine ⟨hest, ?_, ?_⟩
  · have : toRankEntry minClosed fit s = { siteId := s.siteId, kinetics := none } := by
      unfold toRankEntry
      rw [hest]
    exact this ▸ List.mem_map_of_mem (toRankEntry minClosed fit) hmem
  · exact (rankSites_pairwise (screenSites minClosed fit sites)).imp
      (fun hab => hab.1)

/-- Closed witness for `insufficient_data_policy`: a site with 2 closed
intervals against a minimum of 10, in a two-site list; it is marked
insufficient, retained in the screening output, and insufficient entries
trail the ranked output. -/
theorem insufficient_data_policy_witness :
    (⟨7, [1, 2], [⟨0, 3, false⟩, ⟨5, 6, false⟩, ⟨8, 9, true⟩]⟩ : Site) ∈
        ([⟨7, [1, 2], [⟨0, 3, false⟩, ⟨5, 6, false⟩, ⟨8, 9, true⟩]⟩,
          ⟨8, [3, 4], []⟩] : List Site) ∧
    closedCount ⟨7, [1, 2], [⟨0, 3, false⟩, ⟨5, 6, false⟩, ⟨8, 9, true⟩]⟩ < 10 ∧
    (estimateKinetics 10 (fun _ => ⟨0, 0, 0, 0, 0, 0, 0, 0⟩)
        ⟨7, [1, 2], [⟨0, 3, false⟩, ⟨5, 6, false⟩, ⟨8, 9, true⟩]⟩ =
          KineticsOutcome.insufficientData ∧
      ({ siteId := 7, kinetics := none } : RankEntry) ∈
        screenSites 10 (fun _ => ⟨0, 0, 0, 0, 0, 0, 0, 0⟩)
          [⟨7, [1, 2], [⟨0, 3, false⟩, ⟨5, 6, false⟩, ⟨8, 9, true⟩]⟩, ⟨8, [3, 4], []⟩] ∧
      List.Pairwise (fun a b => a.kinetics = none → b.kinetics = none)
        (rankedOutput 10 (fun _ => ⟨0, 0, 0, 0, 0, 0, 0, 0⟩)
          [⟨7, [1, 2], [⟨0, 3, false⟩, ⟨5, 6, false⟩, ⟨8, 9, true⟩]⟩, ⟨8, [3, 4], []⟩])) :=
  ⟨by decide, by decide,
    insufficient_data_policy 10 (fun _ => ⟨0, 0, 0, 0, 0, 0, 0, 0⟩)
      ⟨7, [1, 2], [⟨0, 3, false⟩, ⟨5, 6, false⟩, ⟨8, 9, true⟩]⟩
      [⟨7, [1, 2], [⟨0, 3, false⟩, ⟨5, 6, false⟩, ⟨8, 9, true⟩]⟩, ⟨8, [3, 4], []⟩]
      (by decide) (by decide)⟩

/-- C8: whenever the bi-exponential k_off fit for a site fails to converge
(outcome `none`), the estimator falls back to the single-exponential fit with
the reduced-model-fidelity flag set; the resulting report is still produced
among the outputs, every site in the batch is processed (the output has one
report per site), and no report ever claims the bi-exponential model unless
that fit actually converged. -/
theorem biexp_convergence_fallback (fits : List (Option ExpFit × ExpFit))
    (monoexp : ExpFit) (hmem : (none, monoexp) ∈ fits) :
    fitKoffReport none monoexp =
      { model := FitModel.singleExponential, koff := monoexp.koff,
        r2 := monoexp.r2, reducedFidelity := true } ∧
    fitKoffReport none monoexp ∈ fitAllSites fits ∧
    (fitAllSites fits).length = fits.length ∧
    ∀ p ∈ fits, (fitKoffReport p.1 p.2).model = FitModel.biexponential →
      p.1 ≠ none := by
  refine ⟨rfl, ?_, List.length_map _ _, ?_⟩
  · exact List.mem_map_of_mem (fun p => fitKoffReport p.1 p.2) hmem
  · intro p _ hmodel
    cases hp : p.1 with
    | none =>
        rw [hp] at hmodel
        simp [fitKoffReport] at hmodel
    | some f => exact fun hc => Option.noConfusion hc

/-- Closed witness for `biexp_convergence_fallback`: a two-site batch where
the first site's bi-exponential fit converged and the second failed. -/
theorem biexp_convergence_fallback_witness :
    ((none, (⟨3, 1⟩ : ExpFit)) ∈
        ([(some ⟨5, 1⟩, ⟨4, 1⟩), (none, ⟨3, 1⟩)] :
          List (Option ExpFit × ExpFit))) ∧
    (fitKoffReport none ⟨3, 1⟩ =
        { model := FitModel.singleExponential, koff := 3, r2 := 1,
          reducedFidelity := true } ∧
      fitKoffReport none ⟨3, 1⟩ ∈
        fitAllSites [(some ⟨5, 1⟩, ⟨4, 1⟩), (none, ⟨3, 1⟩)] ∧
      (fitAllSites [(some ⟨5, 1⟩, ⟨4, 1⟩), (none, ⟨3, 1⟩)]).length =
        ([(some ⟨5, 1⟩, ⟨4, 1⟩), (none, ⟨3, 1⟩)] :
          List (Option ExpFit × ExpFit)).length ∧
      ∀ p ∈ ([(some ⟨5, 1⟩, ⟨4, 1⟩), (none, ⟨3, 1⟩)] :
          List (Option ExpFit × ExpFit)),
        (fitKoffReport p.1 p.2).model = FitModel.biexponential → p.1 ≠ none) :=
  ⟨by decide,
    biexp_convergence_fallback [(some ⟨5, 1⟩, ⟨4, 1⟩), (none, ⟨3, 1⟩)] ⟨3, 1⟩
      (by decide)⟩

/-- C4: a user-supplied `CorrespondenceEntry` handed to the ranking/export
stage wins over the automatic one and makes a full round trip: resolution
returns it as-is, `get_BSstat` hands it back unchanged, and the resolved
entry does not depend on the site sets the automatic matcher would have seen
(no silent re-derivation). -/
theorem user_override_round_trip (thr : ℚ) (userEntry : CorrespondenceEntry)
    (resTime : String → Nat → ℚ) (typed typed' : List (String × List MatchSite)) :
    get_site_compare (compare_sites thr typed) (some userEntry) = userEntry ∧
    (get_BSstat resTime (get_site_compare (compare_sites thr typed) (some userEntry))).2 =
      userEntry ∧
    get_site_compare (compare_sites thr typed) (some userEntry) =
      get_site_compare (compare_sites thr typed') (some userEntry) :=
  ⟨rfl, rfl, rfl⟩

/-- C9: the automatic correspondence suggestion step is idempotent: running
the matcher a second time on the same (unchanged) per-type site sets
recomputes exactly the same `CorrespondenceEntry`, so the pipeline state is
unchanged by the repeat run. -/
theorem matcher_idempotent (thr : ℚ) (st : RankingInputs) :
    autoSuggest thr (autoSuggest thr st) = autoSuggest thr st :=
  rfl

/-- C10: the lipid-type list of the site-ranking/correspondence stage is
computed with `bilayer = none` and therefore agrees between any two runs that
differ only in the configured membrane composition, while the
cut-off-testing and PyLipID-analysis stages derive their lipid lists from the
configured bilayer composition (two compositions exist on which they
differ, whatever the user-input lipid list). -/
theorem ranking_lipids_ignore_membrane_composition :
    (∀ (mc mc' : MembraneComposition) (userLipids : List String),
        site_ranking_lipids mc userLipids = site_ranking_lipids mc' userLipids) ∧
    (∃ mc mc' : MembraneComposition, ∀ userLipids : List String,
        cutoff_test_lipids mc userLipids ≠ cutoff_test_lipids mc' userLipids ∧
        pylipid_analysis_lipids mc userLipids ≠ pylipid_analysis_lipids mc' userLipids) := by
  refine ⟨fun _ _ _ => rfl, ?_⟩
  refine ⟨MembraneComposition.predefined "Simple",
    MembraneComposition.custom [("POPE", 100)], fun userLipids => ⟨?_, ?_⟩⟩
  · intro heq
    have : (["POPC", "CHOL"] : List String) = ["POPE"] := heq
    simp at this
  · intro heq
    have : (["POPC", "CHOL"] : List String) = ["POPE"] := heq
    simp at this

/-! ### Connected-component machinery for Binding Site Clustering -/

theorem subset_expandOnce (adj : Nat → Nat → Bool) (univ s : Finset Nat) :
    s ⊆ expandOnce adj univ s :=
  Finset.subset_union_left

theorem expandOnce_subset_univ (adj : Nat → Nat → Bool) (univ s : Finset Nat)
    (hs : s ⊆ univ) : expandOnce adj univ s ⊆ univ :=
  Finset.union_subset hs (Finset.filter_subset _ _)

theorem expandOnce_mono (adj : Nat → Nat → Bool) (univ : Finset Nat)
    {s t : Finset Nat} (hst : s ⊆ t) :
    expandOnce adj univ s ⊆ expandOnce adj univ t := by
  intro x hx
  rcases Finset.mem_union.mp hx with hx | hx
  · exact Finset.mem_union_left _ (hst hx)
  · rcases Finset.mem_filter.mp hx with ⟨hxu, y, hy, hadj⟩
    exact Finset.mem_union_right _ (Finset.mem_filter.mpr ⟨hxu, y, hst hy, hadj⟩)

theorem reachIter_fixed (adj : Nat → Nat → Bool) (univ s : Finset Nat)
    (hfix : expandOnce adj univ s = s) :
    ∀ n, reachIter adj univ n s = s := by
  intro n
  induction n with
  | zero => rfl
  | succ n ih =>
      simp only [reachIter, hfix]
      exact ih

theorem subset_reachIter (adj : Nat → Nat → Bool) (univ : Finset Nat) :
    ∀ (n : Nat) (s : Finset Nat), s ⊆ reachIter adj univ n s := by
  intro n
  induction n with
  | zero => intro s; exact Finset.Subset.refl s
  | succ n ih =>
      intro s
      exact (subset_expandOnce adj univ s).trans (ih (expandOnce adj univ s))

theorem reachIter_subset_univ (adj : Nat → Nat → Bool) (univ : Finset Nat) :
    ∀ (n : Nat) (s : Finset Nat), s ⊆ univ → reachIter adj univ n s ⊆ univ := by
  intro n
  induction n with
  | zero => intro s h; exact h
  | succ n ih => intro s h; exact ih _ (expandOnce_subset_univ adj univ s h)

theorem expandOnce_reachIter_saturates (adj : Nat → Nat → Bool) (univ : Finset Nat) :
    ∀ (n : Nat) (s : Finset Nat), s ⊆ univ → univ.card ≤ n + s.card →
      expandOnce adj univ (reachIter adj univ n s) = reachIter adj univ n s := by
  intro n
  induction n with
  | zero =>
      intro s hsub hcard
      have hs : s = univ := Finset.eq_of_subset_of_card_le hsub (by omega)
      subst hs
      simp only [reachIter]
      exact Finset.union_eq_left.mpr (Finset.filter_subset _ _)
  | succ n ih =>
      intro s hsub hcard
      by_cases hfix : expandOnce adj univ s = s
      · simp only [reachIter]
        rw [hfix, reachIter_fixed adj univ s hfix n]
        exact hfix
      · have hss : s ⊂ expandOnce adj univ s :=
          Finset.ssubset_iff_subset_ne.mpr
            ⟨subset_expandOnce adj univ s, fun h => hfix h.symm⟩
        have hcard2 : s.card < (expandOnce adj univ s).card := Finset.card_lt_card hss
        simp only [reachIter]
        exact ih (expandOnce adj univ s) (expandOnce_subset_univ adj univ s hsub)
          (by omega)

theorem component_fixed (adj : Nat → Nat → Bool) (univ : Finset Nat) (r : Nat)
    (hr : r ∈ univ) :
    expandOnce adj univ (component adj univ r) = component adj univ r :=
  expandOnce_reachIter_saturates adj univ univ.card {r}
    (Finset.singleton_subset_iff.mpr hr)
    (by rw [Finset.card_singleton]; omega)

theorem mem_component_self (adj : Nat → Nat → Bool) (univ : Finset Nat) (r : Nat) :
    r ∈ component adj univ r :=
  subset_reachIter adj univ univ.card {r} (Finset.mem_singleton_self r)

theorem mem_reachIter_reachable (adj : Nat → Nat → Bool) (univ : Finset Nat) :
    ∀ (n : Nat) (s : Finset Nat), s ⊆ univ → ∀ x ∈ reachIter adj univ n s,
      ∃ x0 ∈ s, Relation.ReflTransGen (AdjStep adj univ) x0 x := by
  intro n
  induction n with
  | zero =>
      intro s _ x hx
      exact ⟨x, hx, Relation.ReflTransGen.refl⟩
  | succ n ih =>
      intro s hsub x hx
      simp only [reachIter] at hx
      rcases ih (expandOnce adj univ s) (expandOnce_subset_univ adj univ s hsub) x hx
        with ⟨x0, hx0, hrtg⟩
      rcases Finset.mem_union.mp hx0 with h0 | h0
      · exact ⟨x0, h0, hrtg⟩
      · rcases Finset.mem_filter.mp h0 with ⟨hxu, y, hy, hadj⟩
        exact ⟨y, hy, Relation.ReflTransGen.head ⟨hsub hy, hxu, hadj⟩ hrtg⟩

theorem reachable_mem_of_fixed (adj : Nat → Nat → Bool) (univ : Finset Nat)
    {t : Finset Nat} (hfix : expandOnce adj univ t = t) {x y : Nat} (hx : x ∈ t)
    (h : Relation.ReflTransGen (AdjStep adj univ) x y) : y ∈ t := by
  induction h with
  | refl => exact hx
  | tail _ hstep ih =>
      rcases hstep with ⟨hbu, hcu, hadj⟩
      have hmem : _ ∈ expandOnce adj univ t :=
        Finset.mem_union_right _ (Finset.mem_filter.mpr ⟨hcu, _, ih, hadj⟩)
      rwa [hfix] at hmem

theorem mem_component_iff (adj : Nat → Nat → Bool) (univ : Finset Nat) {r : Nat}
    (hr : r ∈ univ) (x : Nat) :
    x ∈ component adj univ r ↔ Relation.ReflTransGen (AdjStep adj univ) r x := by
  constructor
  · intro hx
    rcases mem_reachIter_reachable adj univ univ.card {r}
        (Finset.singleton_subset_iff.mpr hr) x hx with ⟨x0, hx0, hrtg⟩
    rw [Finset.mem_singleton] at hx0
    exact hx0 ▸ hrtg
  · intro h
    exact reachable_mem_of_fixed adj univ (component_fixed adj univ r hr)
      (mem_component_self adj univ r) h

theorem component_eq_of_mem (adj : Nat → Nat → Bool) (univ : Finset Nat)
    (hsym : ∀ x y, adj x y = adj y x) {r r' x : Nat} (hr : r ∈ univ)
    (hr' : r' ∈ univ) (hx : x ∈ component adj univ r)
    (hx' : x ∈ component adj univ r') :
    component adj univ r = component adj univ r' := by
  have hsymStep : Symmetric (AdjStep adj univ) := by
    intro a b hab
    rcases hab with ⟨hau, hbu, hadj⟩
    exact ⟨hbu, hau, (hsym b a).trans hadj⟩
  have hsymR := Relation.ReflTransGen.symmetric hsymStep
  have h1 : Relation.ReflTransGen (AdjStep adj univ) r x :=
    (mem_component_iff adj univ hr x).mp hx
  have h2 : Relation.ReflTransGen (AdjStep adj univ) r' x :=
    (mem_component_iff adj univ hr' x).mp hx'
  have hrr' : Relation.ReflTransGen (AdjStep adj univ) r r' := h1.trans (hsymR h2)
  ext y
  rw [mem_component_iff adj univ hr y, mem_component_iff adj univ hr' y]
  constructor
  · intro h
    exact (hsymR hrr').trans h
  · intro h
    exact hrr'.trans h

theorem mem_clusterCore (minSize : Nat) (adj : Nat → Nat → Bool) (univ : Finset Nat)
    {c : Finset Nat} (hc : c ∈ clusterCore minSize adj univ) :
    minSize ≤ c.card ∧ ∃ r ∈ univ, c = component adj univ r := by
  rcases Finset.mem_filter.mp hc with ⟨hmem, hcard⟩
  rcases Finset.mem_image.mp hmem with ⟨r, hr, hcomp⟩
  exact ⟨hcard, r, hr, hcomp.symm⟩

theorem adjOf_symm (ivs : List IntervalRec) (r r' : Nat) :
    adjOf ivs r r' = adjOf ivs r' r := by
  unfold adjOf
  apply decide_eq_decide.mpr
  constructor
  · rintro ⟨hne, a, ha, b, hb, h1, h2, h3, h4, h5⟩
    exact ⟨hne.symm, b, hb, a, ha, h2, h1, h3.symm, h5, h4⟩
  · rintro ⟨hne, a, ha, b, hb, h1, h2, h3, h4, h5⟩
    exact ⟨hne.symm, b, hb, a, ha, h2, h1, h3.symm, h5, h4⟩

/-- C5: Binding Site Clustering is invariant under permutation of its input:
for a fixed minimum-size threshold, any reordering of the contact-interval
records (in particular any permutation of the residue order) produces exactly
the same partition, as a set of residue sets (so membership is identical; ids
play no role).  The construction is free of iteration or processing order. -/
theorem clustering_permutation_invariant (minSize : Nat) (ivs ivs' : List IntervalRec)
    (hperm : List.Perm ivs ivs') :
    clusterSites minSize ivs = clusterSites minSize ivs' := by
  unfold clusterSites
  have huniv : contactedResidues ivs = contactedResidues ivs' :=
    List.toFinset_eq_of_perm _ _ (hperm.map IntervalRec.residue)
  have hadj : adjOf ivs = adjOf ivs' := by
    funext r r'
    unfold adjOf
    apply decide_eq_decide.mpr
    constructor
    · rintro ⟨hne, a, ha, b, hb, hrest⟩
      exact ⟨hne, a, hperm.mem_iff.mp ha, b, hperm.mem_iff.mp hb, hrest⟩
    · rintro ⟨hne, a, ha, b, hb, hrest⟩
      exact ⟨hne, a, hperm.mem_iff.mpr ha, b, hperm.mem_iff.mpr hb, hrest⟩
  rw [huniv, hadj]

/-- Closed witness for `clustering_permutation_invariant`: swapping the two
interval records of a small input leaves the partition unchanged. -/
theorem clustering_permutation_invariant_witness :
    List.Perm [(⟨1, 0, 0, 5⟩ : IntervalRec), ⟨2, 0, 3, 8⟩]
        [(⟨2, 0, 3, 8⟩ : IntervalRec), ⟨1, 0, 0, 5⟩] ∧
      clusterSites 2 [⟨1, 0, 0, 5⟩, ⟨2, 0, 3, 8⟩] =
        clusterSites 2 [⟨2, 0, 3, 8⟩, ⟨1, 0, 0, 5⟩] :=
  ⟨by decide,
    clustering_permutation_invariant 2 [⟨1, 0, 0, 5⟩, ⟨2, 0, 3, 8⟩]
      [⟨2, 0, 3, 8⟩, ⟨1, 0, 0, 5⟩] (by decide)⟩

/-- C6: every binding site produced by clustering has residue-set size at
least the configured minimum, and (for the one mobile-species type the
interval set belongs to) a residue belongs to at most one site: any two
produced sites sharing a residue are equal. -/
theorem site_min_size_and_unique_membership (minSize : Nat) (ivs : List IntervalRec)
    (site site' : Finset Nat) (hsite : site ∈ clusterSites minSize ivs)
    (hsite' : site' ∈ clusterSites minSize ivs) :
    minSize ≤ site.card ∧ ∀ r, r ∈ site → r ∈ site' → site = site' := by
  unfold clusterSites at hsite hsite'
  rcases mem_clusterCore minSize (adjOf ivs) (contactedResidues ivs) hsite
    with ⟨hcard, r1, hr1, h1⟩
  rcases mem_clusterCore minSize (adjOf ivs) (contactedResidues ivs) hsite'
    with ⟨_, r2, hr2, h2⟩
  refine ⟨hcard, ?_⟩
  intro x hx hx'
  subst h1
  subst h2
  exact component_eq_of_mem (adjOf ivs) (contactedResidues ivs) (adjOf_symm ivs)
    hr1 hr2 hx hx'

/-- Closed witness for `site_min_size_and_unique_membership`: the two
co-occurring residues 1 and 2 form the single site `{1, 2}` of size ≥ 2. -/
theorem site_min_size_and_unique_membership_witness :
    ({1, 2} : Finset Nat) ∈ clusterSites 2 [⟨1, 0, 0, 5⟩, ⟨2, 0, 3, 8⟩] ∧
      (2 ≤ ({1, 2} : Finset Nat).card ∧
        ∀ r, r ∈ ({1, 2} : Finset Nat) → r ∈ ({1, 2} : Finset Nat) →
          ({1, 2} : Finset Nat) = {1, 2}) :=
  ⟨by decide,
    site_min_size_and_unique_membership 2 [⟨1, 0, 0, 5⟩, ⟨2, 0, 3, 8⟩]
      {1, 2} {1, 2} (by decide) (by decide)⟩

end LipIDens
